import Mathlib

/-!
Verification of the mailbox connection manager of `tgEmailResend`.

The Go sources are shallowly embedded: pure fragments become Lean
functions, the stateful manager becomes explicit state passing, and
external effects (network dial, server responses, probe reachability)
become explicit parameters.  Machine integers (`uint32` message UIDs)
are modelled as `Nat` with explicit `% 2^32` where Go overflow matters.
-/

namespace TgEmailResend

/-- Largest value of Go's `uint32`, the type of message UIDs. -/
def uint32Max : Nat := 2 ^ 32 - 1

/-! ### Go `strings` helpers

Implemented over `String.data` so that every definition evaluates by
kernel reduction (the built-in `String` functions do not). -/

/-- Character-list core of `strings.HasPrefix`. -/
def strStartsWithL : List Char → List Char → Bool
  | _, [] => true
  | [], _ :: _ => false
  | c :: s, d :: t => c == d && strStartsWithL s t

/-- Go `strings.HasPrefix s p`. -/
def goStartsWith (s p : String) : Bool :=
  strStartsWithL s.data p.data

/-- Character-list core of `strings.HasSuffix`. -/
def strEndsWithL (s t : List Char) : Bool :=
  strStartsWithL s.reverse t.reverse

/-- Go `strings.ToLower` (the inputs here are ASCII domain names). -/
def goToLower (s : String) : String :=
  String.mk (s.data.map Char.toLower)

/-- Go `strings.TrimSuffix`. -/
def goTrimSuffix (s suf : String) : String :=
  if strEndsWithL s.data suf.data then
    String.mk (s.data.take (s.data.length - suf.data.length))
  else s

/-- Character-list core of `strings.Split` for a one-character
separator. -/
def splitOnCharL (sep : Char) : List Char → List (List Char)
  | [] => [[]]
  | c :: rest =>
    match splitOnCharL sep rest with
    | [] => [[c]]
    | x :: xs => if c == sep then [] :: x :: xs else (c :: x) :: xs

/-- Go `strings.Split s (String.singleton sep)`. -/
def goSplitChar (sep : Char) (s : String) : List String :=
  (splitOnCharL sep s.data).map String.mk

/-! ## IMAP client data model (from `Client` / go-imap types) -/

/-- `imap.Address` as used by `parseMessage`: `from.PersonalName` and
`from.Address()` (which formats `MailboxName@HostName`). -/
structure EnvAddress where
  personalName : String
  mailboxName : String
  hostName : String
  deriving DecidableEq, Repr

/-- Go `from.Address()` from go-imap: `MailboxName ++ "@" ++ HostName`. -/
def EnvAddress.addrString (a : EnvAddress) : String :=
  a.mailboxName ++ "@" ++ a.hostName

/-- The fields of `imap.Envelope` read by `parseMessage`. -/
structure Envelope where
  subject : String
  date : Nat
  messageId : String
  envFrom : List EnvAddress
  deriving DecidableEq, Repr

/-- A MIME part header as discriminated by `parseMessage`'s type switch:
either `*mail.InlineHeader` (with its content type) or any other header
kind, which the switch ignores. -/
inductive PartHeader where
  | inlineH (contentType : String)
  | otherH
  deriving DecidableEq, Repr

/-- One part yielded by `mr.NextPart()`.  `body = none` models
`io.ReadAll(part.Body)` failing (the Go code then `continue`s). -/
structure MailPart where
  header : PartHeader
  body : Option String
  deriving DecidableEq, Repr

/-- The result of `mail.CreateReader` on a message body:
`unreadable` models `CreateReader` returning an error (logged, body
left empty); `readable ps` models the sequence of parts yielded before
`NextPart` returns `io.EOF` or an error (both simply end the loop). -/
inductive BodyReader where
  | unreadable
  | readable (parts : List MailPart)
  deriving DecidableEq, Repr

/-- The fields of `*imap.Message` read by `parseMessage`:
`Uid`, `Envelope` (nullable) and `GetBody(section)` (nullable). -/
structure ImapMessage where
  uid : Nat
  envelope : Option Envelope
  body : Option BodyReader
  deriving DecidableEq, Repr

/-- `RawEmail` from the client source. `From` is a nullable pointer in
Go, hence `Option Address` here. -/
structure Address where
  name : String
  address : String
  deriving DecidableEq, Repr

structure RawEmail where
  uid : Nat
  messageId : String
  emFrom : Option Address
  subject : String
  date : Nat
  bodyHTML : String
  bodyText : String
  deriving DecidableEq, Repr

/-! ## `Client.parseMessage` -/

/-- The `for { part, err := mr.NextPart() ... }` loop of `parseMessage`:
inline parts with content type `text/html` / `text/plain` overwrite the
HTML / plain body fields; a failed `io.ReadAll` skips the part; other
header kinds are ignored. -/
def parsePartsLoop (email : RawEmail) : List MailPart → RawEmail
  | [] => email
  | p :: rest =>
    match p.header with
    | PartHeader.inlineH ct =>
      match p.body with
      | none => parsePartsLoop email rest
      | some b =>
        if goStartsWith ct "text/html" then
          parsePartsLoop { email with bodyHTML := b } rest
        else if goStartsWith ct "text/plain" then
          parsePartsLoop { email with bodyText := b } rest
        else
          parsePartsLoop email rest
    | PartHeader.otherH => parsePartsLoop email rest

/-- The `email := &RawEmail{UID: msg.Uid}` initialiser followed by the
`if msg.Envelope != nil { ... }` block of `parseMessage`. -/
def parseEnvelopeStage (u : Nat) (envOpt : Option Envelope) : RawEmail :=
  let email0 : RawEmail :=
    { uid := u, messageId := "", emFrom := none, subject := ""
      date := 0, bodyHTML := "", bodyText := "" }
  match envOpt with
  | none => email0
  | some env =>
    let e := { email0 with
                 subject := env.subject, date := env.date
                 messageId := env.messageId }
    match env.envFrom with
    | [] => e
    | f :: _ =>
      { e with emFrom := some { name := f.personalName, address := f.addrString } }

/-- The `bodyReader := msg.GetBody(section); if bodyReader != nil {...}`
block of `parseMessage`. -/
def parseBodyStage (email : RawEmail) (bodyOpt : Option BodyReader) : RawEmail :=
  match bodyOpt with
  | none => email
  | some BodyReader.unreadable => email
  | some (BodyReader.readable parts) => parsePartsLoop email parts

/-- The trailing `if email.From == nil { email.From = &Address{} }` of
`parseMessage`. -/
def parseFromFixStage (email : RawEmail) : RawEmail :=
  if email.emFrom.isNone then
    { email with emFrom := some { name := "", address := "" } }
  else email

/-- `Client.parseMessage`.  Its Go signature returns `(*RawEmail, error)`;
every failure inside (unreadable body, bad part, unreadable part body)
is logged and tolerated, and the function ends with `return email, nil`. -/
def parseMessage (msg : ImapMessage) : Except String RawEmail :=
  Except.ok
    (parseFromFixStage
      (parseBodyStage (parseEnvelopeStage msg.uid msg.envelope) msg.body))

/-! ## `Client.FetchNewMessages` -/

/-- Maximum of a list of naturals (0 for the empty list). -/
def natListMax (l : List Nat) : Nat :=
  l.foldl max 0

/-- The highest UID present in the mailbox (0 when empty): the referent
of `*` in RFC 3501 sequence sets. -/
def mailboxMaxUID (mailbox : List ImapMessage) : Nat :=
  natListMax (mailbox.map ImapMessage.uid)

/-- The sequence-set start built by `seqSet.AddRange(sinceUID+1, 0)`.
The addition is Go `uint32` arithmetic, so the start is
`(sinceUID+1) % 2^32`. -/
def fetchStart (sinceUID : Nat) : Nat :=
  (sinceUID + 1) % 2 ^ 32

/-- The set of messages the server returns for the sequence set built by
`seqSet.AddRange(sinceUID+1, 0)`, under RFC 3501 sequence-set
semantics.  When the (possibly overflowed) start is 0 the set prints as
`*`, which denotes the message with the highest UID in the mailbox.
Otherwise it prints as `start:*`; RFC 3501 reads a range's endpoints in
either order, and `*` stands for the mailbox's highest UID, so
`start:*` denotes every UID between `min start maxUID` and `maxUID` —
in particular it always contains the highest-UID message, even when
`start` exceeds every assigned UID. -/
def requestedMessages (sinceUID : Nat) (mailbox : List ImapMessage) :
    List ImapMessage :=
  if fetchStart sinceUID = 0 then
    mailbox.filter (fun m => decide (∀ m' ∈ mailbox, m'.uid ≤ m.uid))
  else
    mailbox.filter
      (fun m => min (fetchStart sinceUID) (mailboxMaxUID mailbox) ≤ m.uid)

/-- The message-collection loop of `Client.FetchNewMessages`: each
message from the fetch channel is parsed; a parse error is logged and the
message skipped (`continue`); otherwise the email is appended. -/
def fetchLoop (msgs : List ImapMessage) : List RawEmail :=
  match msgs with
  | [] => []
  | m :: rest =>
    match parseMessage m with
    | Except.error _ => fetchLoop rest
    | Except.ok e => e :: fetchLoop rest

/-- `Client.FetchNewMessages` on a connected client, happy transport
path: the server streams the messages matched by `requestedMessages` in
mailbox order, and the loop accumulates the parsed ones in order. -/
def clientFetchNewMessages (mailbox : List ImapMessage) (sinceUID : Nat) :
    List RawEmail :=
  fetchLoop (requestedMessages sinceUID mailbox)

/-! ## `Manager.fetchNewMessages` -/

/-- One invocation of `Manager.fetchNewMessages`, with the outcome of the
two fallible client calls made explicit: `selectOk` is whether
`SelectINBOX` succeeds, and `fetchErr` is the error (if any) received on
`FetchNewMessages`' `done` channel.  On either failure the error handler
is invoked and the function returns with no messages processed;
otherwise every returned email is handed to the message callback in
order and `lastUID` is raised to each UID that exceeds it.
Returns (messages delivered to the callback, updated lastUID). -/
def managerFetchNewMessages (selectOk : Bool) (fetchErr : Option String)
    (mailbox : List ImapMessage) (lastUID : Nat) :
    List RawEmail × Nat :=
  if !selectOk then ([], lastUID)
  else
    match fetchErr with
    | some _ => ([], lastUID)
    | none =>
      let messages := clientFetchNewMessages mailbox lastUID
      (messages,
       messages.foldl (fun l msg => if msg.uid > l then msg.uid else l) lastUID)

/-- One fetch cycle's environment: the `SelectINBOX` outcome, the fetch
transport outcome, and the mailbox contents at that cycle. -/
structure FetchCycle where
  selectOk : Bool
  fetchErr : Option String
  mailbox : List ImapMessage

/-- The tracked `lastUID` after running a sequence of
`Manager.fetchNewMessages` invocations (as `runClient`'s callback does,
threading the same `lastUID` variable through every cycle). -/
def runCycles (cycles : List FetchCycle) (lastUID : Nat) : Nat :=
  match cycles with
  | [] => lastUID
  | c :: rest =>
    runCycles rest (managerFetchNewMessages c.selectOk c.fetchErr c.mailbox lastUID).2

/-! ## Manager registry (`Manager.clients`, `AddAccount`, `TestConnection`) -/

/-- The manager's `clients` map, keyed by `account.ID` (`int64`); the
value is an opaque token identifying the stored `clientWrapper`'s
session.  Go map keys are unique; the association list keeps insertion
explicit so that uniqueness is provable rather than assumed. -/
abbrev Registry := List (Int × Nat)

/-- `m.clients[accountID]` lookup. -/
def lookupClient (reg : Registry) (id : Int) : Option Nat :=
  (reg.find? (fun p => p.1 = id)).map (fun p => p.2)

/-- Number of registry entries stored under one account identifier. -/
def countId (reg : Registry) (id : Int) : Nat :=
  (reg.filter (fun p => p.1 = id)).length

/-- Outcome of `Client.Connect`: the three failure returns (TLS dial,
`client.New`, `Login`) and success.  On `newFail` the Go code runs
`conn.Close()` and on `loginFail` it runs `imapClient.Logout()`, so no
failure path leaves the client holding a connection. -/
inductive ConnectOutcome where
  | dialFail
  | newFail
  | loginFail
  | ok
  deriving DecidableEq, Repr

/-- The connection-owning fields of `Client`: the go-imap handle
(`c.client`, a nullable pointer modelled by an `Option` token), the
`connected` flag and the `stopped` flag. -/
structure ClientState where
  conn : Option Nat
  connected : Bool
  stopped : Bool
  deriving DecidableEq, Repr

/-- The state of a freshly built `Client` (`NewClient`). -/
def newClientState : ClientState :=
  { conn := none, connected := false, stopped := false }

/-- `Client.Connect`: no-op success when already connected; on a failure
the handle is not retained (the partial resources are closed inside
`Connect` itself); on success the handle is stored and `connected` set.
Returns the new state and whether the call succeeded. -/
def clientConnect (st : ClientState) (o : ConnectOutcome) (handle : Nat) :
    ClientState × Bool :=
  if st.connected then (st, true)
  else
    match o with
    | ConnectOutcome.dialFail => (st, false)
    | ConnectOutcome.newFail => (st, false)
    | ConnectOutcome.loginFail => (st, false)
    | ConnectOutcome.ok => ({ st with conn := some handle, connected := true }, true)

/-- `Client.Stop`: second call returns immediately; first call detaches
the handle, clears `connected`, marks `stopped` and closes the stop
channel (the detached handle is logged out / terminated afterwards). -/
def clientStop (st : ClientState) : ClientState :=
  if st.stopped then st
  else { conn := none, connected := false, stopped := true }

/-- `Manager.TestConnection`: builds a throwaway client, connects,
selects INBOX, and stops the client.  The registry is an explicit
parameter so that the absence of registry effects is a provable fact of
the embedding.  Returns (registry after the call, final state of the
throwaway client, success flag). -/
def testConnection (reg : Registry) (o : ConnectOutcome) (selectOk : Bool) :
    Registry × ClientState × Bool :=
  match clientConnect newClientState o 1 with
  | (st1, false) => (reg, st1, false)
  | (st1, true) =>
    if !selectOk then (reg, clientStop st1, false)
    else (reg, clientStop st1, true)

/-- Externally visible effects of one `Manager.AddAccount` call. -/
inductive AddEffect where
  | connectAttempt
  | sessionStarted
  deriving DecidableEq, Repr

structure AddResult where
  registry : Registry
  ok : Bool
  effects : List AddEffect
  deriving DecidableEq, Repr

/-- `Manager.AddAccount` under the exclusive registry lock: if an entry
for `id` already exists, return `nil` with nothing done; otherwise
decrypt, build a client, connect and select (the two fallible external
calls are the `o` / `selectOk` parameters); on failure register nothing;
on success insert the wrapper and spawn `runClient`. -/
def addAccount (reg : Registry) (id : Int) (o : ConnectOutcome)
    (selectOk : Bool) (tok : Nat) : AddResult :=
  match lookupClient reg id with
  | some _ => { registry := reg, ok := true, effects := [] }
  | none =>
    match o with
    | ConnectOutcome.ok =>
      match selectOk with
      | false =>
        { registry := reg, ok := false, effects := [AddEffect.connectAttempt] }
      | true =>
        { registry := reg ++ [(id, tok)], ok := true
          effects := [AddEffect.connectAttempt, AddEffect.sessionStarted] }
    | _ =>
      { registry := reg, ok := false, effects := [AddEffect.connectAttempt] }

/-! ## Registry-lock usage traces (for the lock/network-call claims)

Each manager operation is transcribed as the sequence of its steps,
annotated with the registry-lock mode (`m.mu`) held while the step runs.
The annotations follow the source line by line: `AddAccount` and
`RemoveAccount` take `m.mu.Lock()` with a deferred unlock, so every one
of their steps runs under the exclusive lock; `GetStatus` holds
`m.mu.RLock()` across its body; `MarkAsRead` / `DeleteMessage` release
`m.mu.RUnlock()` before calling into the client. -/

inductive LockMode where
  | noLock
  | shared
  | exclusive
  deriving DecidableEq, Repr

inductive StepKind where
  | mapRead
  | mapWrite
  | localOp
  | networkCall
  | spawnTask
  deriving DecidableEq, Repr

structure MStep where
  kind : StepKind
  lock : LockMode
  deriving DecidableEq, Repr

/-- `Manager.AddAccount` on the path where the account is not yet
registered: existence check, decrypt + `NewClient`, `Connect` (TLS dial
+ login over the network), `SelectINBOX` (network), map insert, spawn of
`runClient` — all under the deferred exclusive lock. -/
def addAccountTrace : List MStep :=
  [ { kind := StepKind.mapRead, lock := LockMode.exclusive }
  , { kind := StepKind.localOp, lock := LockMode.exclusive }
  , { kind := StepKind.networkCall, lock := LockMode.exclusive }
  , { kind := StepKind.networkCall, lock := LockMode.exclusive }
  , { kind := StepKind.mapWrite, lock := LockMode.exclusive }
  , { kind := StepKind.spawnTask, lock := LockMode.exclusive } ]

/-- `Manager.GetStatus`: map lookup and the client's `IsConnected` flag
read, both under the shared lock. -/
def getStatusTrace : List MStep :=
  [ { kind := StepKind.mapRead, lock := LockMode.shared }
  , { kind := StepKind.localOp, lock := LockMode.shared } ]

/-- `Manager.MarkAsRead`: lookup under the shared lock, then the
explicit `RUnlock`, then the client's network `UidStore` with no
registry lock held. -/
def markAsReadTrace : List MStep :=
  [ { kind := StepKind.mapRead, lock := LockMode.shared }
  , { kind := StepKind.networkCall, lock := LockMode.noLock } ]

/-- `Manager.DeleteMessage`: same lock discipline as `MarkAsRead`. -/
def deleteMessageTrace : List MStep :=
  [ { kind := StepKind.mapRead, lock := LockMode.shared }
  , { kind := StepKind.networkCall, lock := LockMode.noLock } ]

/-- `Manager.RemoveAccount`: lookup, `cancel()` + `client.Stop()` (both
return without blocking on the network: `Stop` hands the logout to a
goroutine), map delete — all under the exclusive lock. -/
def removeAccountTrace : List MStep :=
  [ { kind := StepKind.mapRead, lock := LockMode.exclusive }
  , { kind := StepKind.localOp, lock := LockMode.exclusive }
  , { kind := StepKind.mapWrite, lock := LockMode.exclusive } ]

/-- All manager operations' traces together. -/
def managerTraces : List MStep :=
  addAccountTrace ++ getStatusTrace ++ markAsReadTrace ++
    deleteMessageTrace ++ removeAccountTrace

/-! ## Notification wait (`idle.go`) -/

/-- `pollFallback`: a `select` between the stop channel (closed at
`stopAt`, if ever) and a ticker firing after `interval` seconds; the
function returns at whichever comes first. -/
def pollFallback (stopAt : Option Nat) (interval : Nat) : Nat :=
  match stopAt with
  | none => interval
  | some s => min s interval

set_option linter.unusedVariables false in
/-- `IdleClient.IdleWithFallback`: ignores the configured `timeout` and
always polls with a fixed 15-second interval ("Just use polling - it's
more reliable"). -/
def idleWithFallback (stopAt : Option Nat) (timeout : Nat) : Nat :=
  pollFallback stopAt 15

/-- The configured IDLE wait ceiling default, `IMAP_IDLE_TIMEOUT`
`envDefault:"25m"`, in seconds. -/
def defaultIdleTimeout : Nat := 25 * 60

/-! ## `ResolveIMAPServer` (server resolver) -/

/-- The `knownIMAPServers` static table, entry for entry. -/
def knownIMAPServers : List (String × String) :=
  [ ("gmail.com", "imap.gmail.com:993")
  , ("googlemail.com", "imap.gmail.com:993")
  , ("outlook.com", "outlook.office365.com:993")
  , ("hotmail.com", "outlook.office365.com:993")
  , ("live.com", "outlook.office365.com:993")
  , ("msn.com", "outlook.office365.com:993")
  , ("yahoo.com", "imap.mail.yahoo.com:993")
  , ("yahoo.co.uk", "imap.mail.yahoo.com:993")
  , ("yandex.ru", "imap.yandex.ru:993")
  , ("yandex.com", "imap.yandex.com:993")
  , ("mail.ru", "imap.mail.ru:993")
  , ("bk.ru", "imap.mail.ru:993")
  , ("list.ru", "imap.mail.ru:993")
  , ("inbox.ru", "imap.mail.ru:993")
  , ("icloud.com", "imap.mail.me.com:993")
  , ("me.com", "imap.mail.me.com:993")
  , ("mac.com", "imap.mail.me.com:993")
  , ("aol.com", "imap.aol.com:993")
  , ("zoho.com", "imap.zoho.com:993")
  , ("protonmail.com", "127.0.0.1:1143")
  , ("proton.me", "127.0.0.1:1143")
  , ("fastmail.com", "imap.fastmail.com:993")
  , ("gmx.com", "imap.gmx.com:993")
  , ("gmx.de", "imap.gmx.net:993")
  , ("web.de", "imap.web.de:993")
  , ("t-online.de", "secureimap.t-online.de:993")
  , ("rambler.ru", "imap.rambler.ru:993") ]

/-- Map lookup in `knownIMAPServers`. -/
def lookupKnown (domain : String) : Option String :=
  (knownIMAPServers.find? (fun p => p.1 = domain)).map (fun p => p.2)

/-- Go `strings.SplitN(s, ".", 2)`. -/
def splitN2Dot (s : String) : List String :=
  match goSplitChar '.' s with
  | [] => []
  | [x] => [x]
  | x :: rest => [x, String.intercalate "." rest]

/-- The pattern loop of `ResolveIMAPServer`: probe each candidate's host
(`checkIMAPServer`) in order, returning the first reachable pattern.
Also returns the list of hosts actually probed, so that "no probe was
performed" is a provable statement. -/
def probePatterns (probe : String → Bool) :
    List String → Option String × List String
  | [] => (none, [])
  | pat :: rest =>
    let host := goTrimSuffix pat ":993"
    if probe host then (some pat, [host])
    else
      let r := probePatterns probe rest
      (r.1, host :: r.2)

/-- `resolveViaMX`: `mxPrimary` is the (dot-trimmed-before-use) host of
the primary MX record, `none` when `net.LookupMX` fails or returns no
records.  Probes `imap.<parent>` then `mail.<parent>`. -/
def resolveViaMX (probe : String → Bool) (mxPrimary : Option String) :
    Option String × List String :=
  match mxPrimary with
  | none => (none, [])
  | some raw =>
    let mxHost := goTrimSuffix raw "."
    match splitN2Dot mxHost with
    | [_, baseDomain] =>
      let imapHost := "imap." ++ baseDomain
      if probe imapHost then (some (imapHost ++ ":993"), [imapHost])
      else
        let mailHost := "mail." ++ baseDomain
        if probe mailHost then (some (mailHost ++ ":993"), [imapHost, mailHost])
        else (none, [imapHost, mailHost])
    | _ => (none, [])

/-- `ResolveIMAPServer`.  `probe` abstracts `checkIMAPServer host 993`
(a 3-second TCP dial) and `mxPrimary` abstracts the MX lookup.  Returns
the resolver's `(string, error)` result together with the list of hosts
probed on the way. -/
def resolveIMAPServer (probe : String → Bool) (mxPrimary : Option String)
    (email : String) : Except String String × List String :=
  match goSplitChar '@' email with
  | [_, rawDomain] =>
    let domain := goToLower rawDomain
    match lookupKnown domain with
    | some server => (Except.ok server, [])
    | none =>
      let patterns :=
        [ "imap." ++ domain ++ ":993"
        , "mail." ++ domain ++ ":993"
        , domain ++ ":993" ]
      match probePatterns probe patterns with
      | (some pat, probed) => (Except.ok pat, probed)
      | (none, probed) =>
        match resolveViaMX probe mxPrimary with
        | (some server, probed2) => (Except.ok server, probed ++ probed2)
        | (none, probed2) =>
          (Except.ok ("imap." ++ domain ++ ":993"), probed ++ probed2)
  | _ => (Except.error "invalid email format", [])

/-! ## Concrete message batches used in claim instances -/

/-- A well-formed fetched message with the given UID: envelope present,
one sender, one readable plain-text part. -/
def mkMsg (u : Nat) : ImapMessage :=
  { uid := u
  , envelope := some { subject := "hello", date := 1, messageId := "<m>"
                       envFrom := [{ personalName := "A", mailboxName := "a"
                                     hostName := "example.org" }] }
  , body := some (BodyReader.readable
      [{ header := PartHeader.inlineH "text/plain", body := some "body" }]) }

/-- A malformed fetched message with the given UID: no envelope, and a
body whose bytes `mail.CreateReader` rejects. -/
def mkMalformedMsg (u : Nat) : ImapMessage :=
  { uid := u, envelope := none, body := some BodyReader.unreadable }

/-- A batch of five messages in which the malformed one has the highest
raw UID (50); the other four have UIDs 10, 20, 30, 40. -/
def fiveBatch : List ImapMessage :=
  [mkMsg 10, mkMsg 20, mkMsg 30, mkMsg 40, mkMalformedMsg 50]

/-! ## Helper lemmas about `parseMessage` and the fetch loop -/

theorem parsePartsLoop_uid (ps : List MailPart) (e : RawEmail) :
    (parsePartsLoop e ps).uid = e.uid := by
  induction ps generalizing e with
  | nil => rfl
  | cons p rest ih =>
    rcases p with ⟨hdr, body⟩
    cases hdr with
    | otherH => simpa [parsePartsLoop] using ih e
    | inlineH ct =>
      cases body with
      | none => simpa [parsePartsLoop] using ih e
      | some b =>
        simp only [parsePartsLoop]
        split
        · rw [ih]
        · split
          · rw [ih]
          · rw [ih]

theorem parsePartsLoop_emFrom (ps : List MailPart) (e : RawEmail) :
    (parsePartsLoop e ps).emFrom = e.emFrom := by
  induction ps generalizing e with
  | nil => rfl
  | cons p rest ih =>
    rcases p with ⟨hdr, body⟩
    cases hdr with
    | otherH => simpa [parsePartsLoop] using ih e
    | inlineH ct =>
      cases body with
      | none => simpa [parsePartsLoop] using ih e
      | some b =>
        simp only [parsePartsLoop]
        split
        · rw [ih]
        · split
          · rw [ih]
          · rw [ih]

/-- `parseMessage` always succeeds: its Go body ends in
`return email, nil` and every internal failure is only logged. -/
theorem parseMessage_ok (msg : ImapMessage) :
    ∃ e, parseMessage msg = Except.ok e :=
  ⟨_, rfl⟩

theorem parseEnvelopeStage_uid (u : Nat) (envOpt : Option Envelope) :
    (parseEnvelopeStage u envOpt).uid = u := by
  rcases envOpt with _ | env
  · rfl
  · rcases henv : env.envFrom with _ | ⟨f, rest⟩ <;>
      simp [parseEnvelopeStage, henv]

theorem parseBodyStage_uid (email : RawEmail) (bodyOpt : Option BodyReader) :
    (parseBodyStage email bodyOpt).uid = email.uid := by
  rcases bodyOpt with _ | (_ | parts) <;>
    simp [parseBodyStage, parsePartsLoop_uid]

theorem parseFromFixStage_uid (email : RawEmail) :
    (parseFromFixStage email).uid = email.uid := by
  unfold parseFromFixStage
  split <;> rfl

theorem parseMessage_uid (msg : ImapMessage) (e : RawEmail)
    (h : parseMessage msg = Except.ok e) : e.uid = msg.uid := by
  simp only [parseMessage, Except.ok.injEq] at h
  subst h
  rw [parseFromFixStage_uid, parseBodyStage_uid, parseEnvelopeStage_uid]

theorem parseFromFixStage_isSome (email : RawEmail) :
    (parseFromFixStage email).emFrom.isSome = true := by
  unfold parseFromFixStage
  rcases hf : email.emFrom with _ | a <;> simp [hf]

theorem parseMessage_from_isSome (msg : ImapMessage) (e : RawEmail)
    (h : parseMessage msg = Except.ok e) : e.emFrom.isSome = true := by
  simp only [parseMessage, Except.ok.injEq] at h
  subst h
  exact parseFromFixStage_isSome _

theorem fetchLoop_length (msgs : List ImapMessage) :
    (fetchLoop msgs).length = msgs.length := by
  induction msgs with
  | nil => rfl
  | cons m rest ih =>
    obtain ⟨e, he⟩ := parseMessage_ok m
    simp [fetchLoop, he, ih]

theorem fetchLoop_uids (msgs : List ImapMessage) :
    (fetchLoop msgs).map RawEmail.uid = msgs.map ImapMessage.uid := by
  induction msgs with
  | nil => rfl
  | cons m rest ih =>
    obtain ⟨e, he⟩ := parseMessage_ok m
    simp [fetchLoop, he, ih, parseMessage_uid m e he]

/-- The `lastUID` tracker of `Manager.fetchNewMessages` never moves
down: folding `if msg.UID > lastUID { lastUID = msg.UID }` over any
message list yields at least the starting value. -/
theorem track_foldl_ge (msgs : List RawEmail) (l : Nat) :
    l ≤ msgs.foldl (fun a m => if m.uid > a then m.uid else a) l := by
  induction msgs generalizing l with
  | nil => exact Nat.le_refl l
  | cons m rest ih =>
    refine Nat.le_trans ?_ (ih (if m.uid > l then m.uid else l))
    split <;> omega

/-! ## C10 — `parseMessage` is total and always yields a sender -/

/-- C10: for every fetched IMAP message `parseMessage` returns a
`RawEmail` with a nil error — so the error branch of
`FetchNewMessages`' collection loop is unreachable and the loop emits
exactly one email per message — and the returned email always carries a
non-nil `From` (an empty `Address` when no sender could be parsed). -/
theorem parseMessage_total_from_nonnil :
    (∀ msg : ImapMessage, ∃ e, parseMessage msg = Except.ok e ∧
        e.emFrom.isSome = true) ∧
    (∀ msgs : List ImapMessage, (fetchLoop msgs).length = msgs.length) := by
  constructor
  · intro msg
    obtain ⟨e, he⟩ := parseMessage_ok msg
    exact ⟨e, he, parseMessage_from_isSome msg e he⟩
  · exact fetchLoop_length

/-! ## C1 — a parse failure does not actually skip a message -/

/-- C1, as stated, is false on the code: in the five-message batch with
the malformed message carrying the highest raw UID (50), the claim
predicts four delivered events and a tracked identifier of 40, but the
code delivers five events and advances the tracked identifier to 50,
because `parseMessage` never reports failure. -/
theorem parse_skip_counterexample :
    ¬ (((managerFetchNewMessages true none fiveBatch 0).1).length = 4 ∧
       (managerFetchNewMessages true none fiveBatch 0).2 = 40) := by
  decide

/-- C1 amended: the per-message skip branch of `FetchNewMessages` is
dead code, so no fetched message is ever skipped: every message in a
batch — malformed or not — produces a delivered message event, and the
tracked identifier advances to the highest raw identifier of the batch.
In the five-message batch with the malformed message at UID 50, five
events are delivered and the tracked identifier advances to 50. -/
theorem parse_skip_amended :
    (∀ (mailbox : List ImapMessage) (lastUID : Nat),
        ((managerFetchNewMessages true none mailbox lastUID).1).length =
          (requestedMessages lastUID mailbox).length) ∧
    ((managerFetchNewMessages true none fiveBatch 0).1).length = 5 ∧
    (managerFetchNewMessages true none fiveBatch 0).2 = 50 := by
  refine ⟨?_, by decide, by decide⟩
  intro mailbox lastUID
  simp [managerFetchNewMessages, clientFetchNewMessages, fetchLoop_length]

/-! ## C5 — the tracked identifier is non-decreasing -/

/-- C5: for every account the tracked last-seen identifier is
non-decreasing: each `Manager.fetchNewMessages` invocation (whatever the
select/fetch outcome and mailbox contents) leaves `lastUID` at least its
previous value, and hence so does any sequence of invocations. -/
theorem tracked_uid_monotone :
    (∀ (selectOk : Bool) (fetchErr : Option String)
        (mailbox : List ImapMessage) (lastUID : Nat),
        lastUID ≤ (managerFetchNewMessages selectOk fetchErr mailbox lastUID).2) ∧
    (∀ (cycles : List FetchCycle) (lastUID : Nat),
        lastUID ≤ runCycles cycles lastUID) := by
  have hstep : ∀ (selectOk : Bool) (fetchErr : Option String)
      (mailbox : List ImapMessage) (lastUID : Nat),
      lastUID ≤ (managerFetchNewMessages selectOk fetchErr mailbox lastUID).2 := by
    intro selectOk fetchErr mailbox lastUID
    cases selectOk with
    | false => simp [managerFetchNewMessages]
    | true =>
      cases fetchErr with
      | some e => simp [managerFetchNewMessages]
      | none => simpa [managerFetchNewMessages] using
          track_foldl_ge (clientFetchNewMessages mailbox lastUID) lastUID
  refine ⟨hstep, ?_⟩
  intro cycles
  induction cycles with
  | nil => intro l; exact Nat.le_refl l
  | cons c rest ih =>
    intro l
    exact Nat.le_trans (hstep c.selectOk c.fetchErr c.mailbox l)
      (ih (managerFetchNewMessages c.selectOk c.fetchErr c.mailbox l).2)

/-! ## C7 — every notification wait is bounded -/

/-- C7: the notification wait is always bounded.  `IdleWithFallback`
substitutes the fixed 15-second unconditional poll for the unreliable
IDLE mechanism, so every wait ends within 15 seconds (hence within the
configured ceiling, default 25 minutes) — at the ticker if no signal
arrives, at the stop signal if it comes first — and the configured
ceiling value does not affect the wait at all, making the substitution
transparent to the caller. -/
theorem idle_wait_bounded :
    ∀ (stopAt : Option Nat) (timeout : Nat),
      idleWithFallback stopAt timeout ≤ 15 ∧
      idleWithFallback stopAt timeout ≤ defaultIdleTimeout ∧
      idleWithFallback stopAt timeout = idleWithFallback stopAt defaultIdleTimeout ∧
      idleWithFallback none timeout = 15 ∧
      (∀ s, idleWithFallback (some s) timeout = min s 15) := by
  intro stopAt timeout
  refine ⟨?_, ?_, rfl, rfl, fun s => rfl⟩
  · cases stopAt with
    | none => exact Nat.le_refl 15
    | some s => exact Nat.min_le_right s 15
  · cases stopAt with
    | none =>
      show (15 : Nat) ≤ defaultIdleTimeout
      decide
    | some s =>
      exact Nat.le_trans (Nat.min_le_right s 15)
        (by decide : (15 : Nat) ≤ defaultIdleTimeout)

/-! ## C8 — `TestConnection` has no registry effect and tears down -/

/-- C8: `TestConnection` never creates, modifies, or leaves behind any
registry entry, whatever the connect and select outcomes, and the
throwaway client it uses ends every outcome path holding no connection
(`client` nil, `connected` false). -/
theorem test_connection_frame (reg : Registry) (o : ConnectOutcome)
    (selectOk : Bool) :
    (testConnection reg o selectOk).1 = reg ∧
    (testConnection reg o selectOk).2.1.conn = none ∧
    (testConnection reg o selectOk).2.1.connected = false := by
  cases o <;> cases selectOk <;>
    simp [testConnection, clientConnect, clientStop, newClientState]

/-! ## C2 — delta fetch strictly above the cursor -/

/-- `max(returned identifiers)` over a fetch result (0 when empty). -/
def maxUID (emails : List RawEmail) : Nat :=
  emails.foldl (fun a e => max a e.uid) 0

theorem foldl_nat_max_init (l : List Nat) (a b : Nat) :
    l.foldl max (max a b) = max a (l.foldl max b) := by
  induction l generalizing b with
  | nil => rfl
  | cons x rest ih =>
    show rest.foldl max (max (max a b) x) = max a (rest.foldl max (max b x))
    rw [Nat.max_assoc]
    exact ih (max b x)

theorem le_foldl_nat_max (l : List Nat) (a : Nat) : a ≤ l.foldl max a := by
  induction l generalizing a with
  | nil => exact Nat.le_refl a
  | cons x rest ih =>
    exact Nat.le_trans (Nat.le_max_left a x) (ih (max a x))

theorem mem_le_foldl_nat_max :
    ∀ (l : List Nat) (a x : Nat), x ∈ l → x ≤ l.foldl max a := by
  intro l
  induction l with
  | nil => intro a x hx; cases hx
  | cons y rest ih =>
    intro a x hx
    rcases List.mem_cons.mp hx with h | h
    · subst h
      exact Nat.le_trans (Nat.le_max_right a x) (le_foldl_nat_max rest (max a x))
    · exact ih (max a y) x h

theorem mem_le_natListMax (l : List Nat) (x : Nat) (hx : x ∈ l) :
    x ≤ natListMax l :=
  mem_le_foldl_nat_max l 0 x hx

theorem foldl_nat_max_le (l : List Nat) :
    ∀ (a b : Nat), a ≤ b → (∀ x ∈ l, x ≤ b) → l.foldl max a ≤ b := by
  induction l with
  | nil => intro a b hab h; exact hab
  | cons y rest ih =>
    intro a b hab h
    refine ih (max a y) b ?_ ?_
    · exact Nat.max_le.mpr ⟨hab, h y (List.mem_cons_self y rest)⟩
    · intro x hx
      exact h x (List.mem_cons_of_mem y hx)

theorem natListMax_le (l : List Nat) (b : Nat) (h : ∀ x ∈ l, x ≤ b) :
    natListMax l ≤ b :=
  foldl_nat_max_le l 0 b (Nat.zero_le b) h

theorem natListMax_mem (l : List Nat) (h : l ≠ []) : natListMax l ∈ l := by
  induction l with
  | nil => exact absurd rfl h
  | cons y rest ih =>
    show rest.foldl max (max 0 y) ∈ y :: rest
    rw [Nat.zero_max]
    by_cases hr : rest = []
    · subst hr
      exact List.mem_cons_self y []
    · have hsplit : rest.foldl max y = max y (natListMax rest) := by
        have hinit := foldl_nat_max_init rest y 0
        rw [Nat.max_zero] at hinit
        exact hinit
      rw [hsplit]
      rcases Nat.le_total y (natListMax rest) with hy | hy
      · rw [Nat.max_eq_right hy]
        exact List.mem_cons_of_mem y (ih hr)
      · rw [Nat.max_eq_left hy]
        exact List.mem_cons_self y rest

theorem maxUID_eq (emails : List RawEmail) :
    maxUID emails = natListMax (emails.map RawEmail.uid) := by
  unfold maxUID natListMax
  rw [List.foldl_map]

/-- C2, as stated, is false at the `uint32` boundary: with
`sinceUID = 2^32 - 1` the Go addition `sinceUID + 1` overflows to 0, the
constructed sequence set is `*`, and the fetch requests (and delivers)
the mailbox's highest-UID message even though its identifier is not
strictly greater than `sinceUID` — on a mailbox holding one message of
UID 7, `FetchNewMessages(2^32-1)` returns that message again. -/
theorem fetch_delta_counterexample :
    ¬ (∀ m ∈ requestedMessages uint32Max [mkMsg 7], uint32Max < m.uid) ∧
    clientFetchNewMessages [mkMsg 7] uint32Max ≠ [] := by
  constructor
  · decide
  · decide

/-- C2 amended (RFC 3501 sequence-set semantics): for every
`sinceIdentifier K < 2^32 - 1`, every message with identifier strictly
greater than `K` is requested, but every requested identifier is either
strictly greater than `K` **or** the mailbox's highest assigned
identifier — the range `K+1:*` always includes the newest message even
when its identifier is at most `K`.  Consequently `FetchNewMessages(K)`
followed immediately by `FetchNewMessages(max(returned identifiers))`
does **not** yield an empty result on a non-empty mailbox: the maximum
returned identifier is the mailbox's highest UID, and the follow-up
fetch returns exactly the highest-UID message(s) again — the newest
message is re-delivered every cycle; no message below the newest is
ever re-delivered. -/
theorem fetch_delta_amended (K : Nat) (mailbox : List ImapMessage)
    (hK : K < uint32Max) (hmb : mailbox ≠ [])
    (hmax : mailboxMaxUID mailbox < uint32Max) :
    (∀ m ∈ requestedMessages K mailbox,
        K < m.uid ∨ m.uid = mailboxMaxUID mailbox) ∧
    (∀ m ∈ mailbox, K < m.uid → m ∈ requestedMessages K mailbox) ∧
    maxUID (clientFetchNewMessages mailbox K) = mailboxMaxUID mailbox ∧
    (clientFetchNewMessages mailbox (mailboxMaxUID mailbox)).map RawEmail.uid =
      (mailbox.filter
          (fun m => decide (m.uid = mailboxMaxUID mailbox))).map
        ImapMessage.uid ∧
    clientFetchNewMessages mailbox (mailboxMaxUID mailbox) ≠ [] := by
  have huint : uint32Max = 2 ^ 32 - 1 := rfl
  have hstart : fetchStart K = K + 1 := by
    unfold fetchStart
    apply Nat.mod_eq_of_lt
    omega
  have hreq : requestedMessages K mailbox =
      mailbox.filter
        (fun m => decide (min (K + 1) (mailboxMaxUID mailbox) ≤ m.uid)) := by
    unfold requestedMessages
    rw [hstart, if_neg (Nat.succ_ne_zero K)]
  have hmemle : ∀ m ∈ mailbox, m.uid ≤ mailboxMaxUID mailbox := by
    intro m hm
    exact mem_le_natListMax _ _ (List.mem_map_of_mem _ hm)
  have hexmax : ∃ m ∈ mailbox, m.uid = mailboxMaxUID mailbox := by
    have hne : mailbox.map ImapMessage.uid ≠ [] := by
      cases mailbox with
      | nil => exact absurd rfl hmb
      | cons a l => simp
    obtain ⟨m, hm, hmu⟩ := List.mem_map.mp (natListMax_mem _ hne)
    exact ⟨m, hm, hmu⟩
  have part1 : ∀ m ∈ requestedMessages K mailbox,
      K < m.uid ∨ m.uid = mailboxMaxUID mailbox := by
    intro m hm
    rw [hreq] at hm
    obtain ⟨hmail, hp⟩ := List.mem_filter.mp hm
    simp only [decide_eq_true_eq] at hp
    rcases Nat.le_total (K + 1) (mailboxMaxUID mailbox) with hc | hc
    · rw [Nat.min_eq_left hc] at hp
      exact Or.inl (by omega)
    · rw [Nat.min_eq_right hc] at hp
      exact Or.inr (Nat.le_antisymm (hmemle m hmail) hp)
  have part2 : ∀ m ∈ mailbox, K < m.uid → m ∈ requestedMessages K mailbox := by
    intro m hm hKm
    rw [hreq]
    refine List.mem_filter.mpr ⟨hm, ?_⟩
    simp only [decide_eq_true_eq]
    exact Nat.le_trans (Nat.min_le_left _ _) hKm
  have hreqmax : ∀ m ∈ mailbox, m.uid = mailboxMaxUID mailbox →
      m ∈ requestedMessages K mailbox := by
    intro m hm hmu
    rw [hreq]
    refine List.mem_filter.mpr ⟨hm, ?_⟩
    simp only [decide_eq_true_eq]
    rw [hmu]
    exact Nat.min_le_right _ _
  have huids : (clientFetchNewMessages mailbox K).map RawEmail.uid =
      (requestedMessages K mailbox).map ImapMessage.uid :=
    fetchLoop_uids _
  have part3 : maxUID (clientFetchNewMessages mailbox K) =
      mailboxMaxUID mailbox := by
    rw [maxUID_eq, huids]
    apply Nat.le_antisymm
    · apply natListMax_le
      intro x hx
      obtain ⟨m, hm, hmu⟩ := List.mem_map.mp hx
      rw [hreq] at hm
      have hmail := (List.mem_filter.mp hm).1
      have := hmemle m hmail
      omega
    · obtain ⟨m, hm, hmu⟩ := hexmax
      have hmreq := hreqmax m hm hmu
      have hmm : m.uid ∈ (requestedMessages K mailbox).map ImapMessage.uid :=
        List.mem_map_of_mem _ hmreq
      rw [hmu] at hmm
      exact mem_le_natListMax _ _ hmm
  have hstart2 : fetchStart (mailboxMaxUID mailbox) =
      mailboxMaxUID mailbox + 1 := by
    unfold fetchStart
    apply Nat.mod_eq_of_lt
    omega
  have hreq2 : requestedMessages (mailboxMaxUID mailbox) mailbox =
      mailbox.filter (fun m => decide (m.uid = mailboxMaxUID mailbox)) := by
    unfold requestedMessages
    rw [hstart2, if_neg (Nat.succ_ne_zero _)]
    simp only [Nat.min_eq_right (Nat.le_succ (mailboxMaxUID mailbox))]
    apply List.filter_congr
    intro m hm
    have := hmemle m hm
    rw [decide_eq_decide]
    omega
  refine ⟨part1, part2, part3, ?_, ?_⟩
  · have h1 : (clientFetchNewMessages mailbox (mailboxMaxUID mailbox)).map
        RawEmail.uid =
        (requestedMessages (mailboxMaxUID mailbox) mailbox).map
          ImapMessage.uid :=
      fetchLoop_uids _
    rw [h1, hreq2]
  · obtain ⟨m, hm, hmu⟩ := hexmax
    have hmem2 : m ∈ requestedMessages (mailboxMaxUID mailbox) mailbox := by
      rw [hreq2]
      exact List.mem_filter.mpr ⟨hm, by simp [hmu]⟩
    intro hc
    have hlen := fetchLoop_length (requestedMessages (mailboxMaxUID mailbox) mailbox)
    unfold clientFetchNewMessages at hc
    rw [hc] at hlen
    have h0 : (requestedMessages (mailboxMaxUID mailbox) mailbox).length = 0 :=
      hlen.symm
    rw [List.length_eq_zero.mp h0] at hmem2
    simp at hmem2

/-- Closed instance of `fetch_delta_amended`: on a one-message mailbox
(UID 7), fetching from cursor 0 returns the message with maximum 7, and
the immediate follow-up fetch from 7 re-delivers the UID-7 message —
the second batch is non-empty. -/
theorem fetch_delta_amended_witness :
    (0 : Nat) < uint32Max ∧
    ([mkMsg 7] : List ImapMessage) ≠ [] ∧
    mailboxMaxUID [mkMsg 7] < uint32Max ∧
    ((∀ m ∈ requestedMessages 0 [mkMsg 7],
         0 < m.uid ∨ m.uid = mailboxMaxUID [mkMsg 7]) ∧
     (∀ m ∈ ([mkMsg 7] : List ImapMessage),
         0 < m.uid → m ∈ requestedMessages 0 [mkMsg 7]) ∧
     maxUID (clientFetchNewMessages [mkMsg 7] 0) = mailboxMaxUID [mkMsg 7] ∧
     (clientFetchNewMessages [mkMsg 7] (mailboxMaxUID [mkMsg 7])).map
         RawEmail.uid =
       (([mkMsg 7] : List ImapMessage).filter
           (fun m => decide (m.uid = mailboxMaxUID [mkMsg 7]))).map
         ImapMessage.uid ∧
     clientFetchNewMessages [mkMsg 7] (mailboxMaxUID [mkMsg 7]) ≠ []) :=
  ⟨by decide, by decide, by decide,
   fetch_delta_amended 0 [mkMsg 7] (by decide) (by decide) (by decide)⟩

/-! ## C6 — ascending identifier order -/

theorem fetchLoop_pairwise (msgs : List ImapMessage)
    (h : List.Pairwise (fun a b => a.uid < b.uid) msgs) :
    List.Pairwise (fun a b : RawEmail => a.uid < b.uid) (fetchLoop msgs) := by
  induction msgs with
  | nil => exact List.Pairwise.nil
  | cons m rest ih =>
    obtain ⟨e, he⟩ := parseMessage_ok m
    rw [List.pairwise_cons] at h
    obtain ⟨hm, hrest⟩ := h
    simp only [fetchLoop, he]
    refine List.Pairwise.cons ?_ (ih hrest)
    intro b hb
    have hbu : b.uid ∈ (fetchLoop rest).map RawEmail.uid :=
      List.mem_map_of_mem _ hb
    rw [fetchLoop_uids] at hbu
    obtain ⟨m', hm', hmu⟩ := List.mem_map.mp hbu
    have := hm m' hm'
    rw [parseMessage_uid m e he]
    omega

/-- C6: when the server streams the fetched batch in ascending UID order
(as the IMAP mailbox order guarantees), `FetchNewMessages` returns the
parsed messages in strictly ascending identifier order, and
`Manager.fetchNewMessages` invokes the message callback on exactly that
list in that order within the batch. -/
theorem fetch_order_ascending (mailbox : List ImapMessage) (K : Nat)
    (h : List.Pairwise (fun a b => a.uid < b.uid) mailbox) :
    List.Pairwise (fun a b : RawEmail => a.uid < b.uid)
      (clientFetchNewMessages mailbox K) ∧
    (managerFetchNewMessages true none mailbox K).1 =
      clientFetchNewMessages mailbox K := by
  constructor
  · refine fetchLoop_pairwise _ ?_
    unfold requestedMessages
    split
    · exact List.Pairwise.sublist (List.filter_sublist _) h
    · exact List.Pairwise.sublist (List.filter_sublist _) h
  · rfl

/-- Closed instance of `fetch_order_ascending` on a two-message batch. -/
theorem fetch_order_ascending_witness :
    List.Pairwise (fun a b : ImapMessage => a.uid < b.uid) [mkMsg 3, mkMsg 5] ∧
    (List.Pairwise (fun a b : RawEmail => a.uid < b.uid)
        (clientFetchNewMessages [mkMsg 3, mkMsg 5] 0) ∧
      (managerFetchNewMessages true none [mkMsg 3, mkMsg 5] 0).1 =
        clientFetchNewMessages [mkMsg 3, mkMsg 5] 0) :=
  ⟨by decide, fetch_order_ascending [mkMsg 3, mkMsg 5] 0 (by decide)⟩

/-! ## C4 — `AddAccount` idempotence and session uniqueness -/

theorem findClient_none (reg : Registry) (id : Int)
    (h : lookupClient reg id = none) :
    reg.find? (fun p => decide (p.1 = id)) = none := by
  unfold lookupClient at h
  cases hh : reg.find? (fun p => decide (p.1 = id)) with
  | none => rfl
  | some v => rw [hh] at h; simp at h

theorem lookupClient_none_countId (reg : Registry) (id : Int)
    (h : lookupClient reg id = none) : countId reg id = 0 := by
  have hf := findClient_none reg id h
  have hall := List.find?_eq_none.mp hf
  unfold countId
  rw [List.length_eq_zero, List.filter_eq_nil_iff]
  intro p hp
  exact fun hc => hall p hp hc

theorem countId_append (r1 r2 : Registry) (i : Int) :
    countId (r1 ++ r2) i = countId r1 i + countId r2 i := by
  unfold countId
  rw [List.filter_append, List.length_append]

theorem lookupClient_append_self (reg : Registry) (id : Int) (tok : Nat)
    (h : lookupClient reg id = none) :
    lookupClient (reg ++ [(id, tok)]) id = some tok := by
  have hf := findClient_none reg id h
  unfold lookupClient
  rw [List.find?_append, hf]
  simp

/-- C4: `AddAccount` is idempotent and preserves session uniqueness —
(1) when a session for the id already exists, the call returns success
with the registry unchanged and no side effects (no connect attempt, no
session started); (2) any call preserves "at most one registry entry per
account identifier"; (3) two `AddAccount` calls for the same id (their
interleaving serialized by the exclusive registry lock) yield exactly
one registered session, the second call succeeding with no effects. -/
theorem addAccount_idempotent_unique :
    (∀ (reg : Registry) (id : Int) (o : ConnectOutcome) (sel : Bool)
        (tok s : Nat),
        lookupClient reg id = some s →
        addAccount reg id o sel tok =
          { registry := reg, ok := true, effects := [] }) ∧
    (∀ (reg : Registry) (id i : Int) (o : ConnectOutcome) (sel : Bool)
        (tok : Nat),
        countId reg i ≤ 1 →
        countId (addAccount reg id o sel tok).registry i ≤ 1) ∧
    (∀ (reg : Registry) (id : Int) (tok tok2 : Nat) (o2 : ConnectOutcome)
        (sel2 : Bool),
        lookupClient reg id = none →
        countId (addAccount reg id ConnectOutcome.ok true tok).registry id = 1 ∧
        addAccount (addAccount reg id ConnectOutcome.ok true tok).registry id
            o2 sel2 tok2 =
          { registry := (addAccount reg id ConnectOutcome.ok true tok).registry
            ok := true, effects := [] }) := by
  have hexists : ∀ (reg : Registry) (id : Int) (o : ConnectOutcome)
      (sel : Bool) (tok s : Nat),
      lookupClient reg id = some s →
      addAccount reg id o sel tok =
        { registry := reg, ok := true, effects := [] } := by
    intro reg id o sel tok s h
    unfold addAccount
    rw [h]
  have hsuccess : ∀ (reg : Registry) (id : Int) (tok : Nat),
      lookupClient reg id = none →
      (addAccount reg id ConnectOutcome.ok true tok).registry =
        reg ++ [(id, tok)] := by
    intro reg id tok h
    unfold addAccount
    rw [h]
  refine ⟨hexists, ?_, ?_⟩
  · intro reg id i o sel tok h
    unfold addAccount
    cases hl : lookupClient reg id with
    | some s => exact h
    | none =>
      cases o with
      | dialFail => exact h
      | newFail => exact h
      | loginFail => exact h
      | ok =>
        cases sel with
        | false => exact h
        | true =>
          show countId (reg ++ [(id, tok)]) i ≤ 1
          rw [countId_append]
          by_cases hi : i = id
          · subst hi
            rw [lookupClient_none_countId reg i hl]
            have : countId [(i, tok)] i = 1 := by
              unfold countId
              simp
            omega
          · have : countId [(id, tok)] i = 0 := by
              unfold countId
              simp
              exact fun hc => hi hc.symm
            omega
  · intro reg id tok tok2 o2 sel2 h
    have h1 := hsuccess reg id tok h
    constructor
    · rw [h1, countId_append, lookupClient_none_countId reg id h]
      have : countId [(id, tok)] id = 1 := by
        unfold countId
        simp
      omega
    · have h2 : lookupClient (addAccount reg id ConnectOutcome.ok true tok).registry id = some tok := by
        rw [h1]
        exact lookupClient_append_self reg id tok h
      exact hexists _ id o2 sel2 tok2 tok h2

/-- Closed instance of `addAccount_idempotent_unique`: on an empty
registry, adding account 1 twice registers exactly one session and the
second call is a successful no-op. -/
theorem addAccount_idempotent_unique_witness :
    countId (addAccount [] 1 ConnectOutcome.ok true 5).registry 1 = 1 ∧
    addAccount (addAccount [] 1 ConnectOutcome.ok true 5).registry 1
        ConnectOutcome.dialFail false 6 =
      { registry := (addAccount [] 1 ConnectOutcome.ok true 5).registry
        ok := true, effects := [] } :=
  addAccount_idempotent_unique.2.2 [] 1 5 6 ConnectOutcome.dialFail false rfl

/-! ## C3 — the registry lock versus network calls -/

/-- C3, as stated, is false on the code: `AddAccount` takes the
exclusive registry lock with a deferred unlock and then performs its
`Connect` and `SelectINBOX` network calls, so the registry lock is held
across network calls (a stalled connect blocks every operation that
takes the registry lock). -/
theorem registry_lock_counterexample :
    ¬ (∀ s ∈ managerTraces,
        s.kind = StepKind.networkCall → s.lock = LockMode.noLock) := by
  decide

/-- C3 amended: the read-path operations hold the registry lock only for
lookup — `GetStatus` performs no network call at all, and `MarkAsRead` /
`DeleteMessage` release the shared lock before their network call — but
`AddAccount` (also when run for each account by `RestoreAll`) holds the
exclusive registry lock across its connect and folder-select network
calls, so a stalled or slow connect attempt for one account does block
the manager's other synchronous operations until it completes. -/
theorem registry_lock_amended :
    (∃ s ∈ addAccountTrace,
        s.kind = StepKind.networkCall ∧ s.lock = LockMode.exclusive) ∧
    (∀ s ∈ getStatusTrace, s.kind ≠ StepKind.networkCall) ∧
    (∀ s ∈ markAsReadTrace ++ deleteMessageTrace,
        s.kind = StepKind.networkCall → s.lock = LockMode.noLock) := by
  decide

/-! ## C9 — static-table resolution without probing -/

/-- C9: for every address that splits into user and domain at a single
`@` and whose lowercased domain is a key of the static
`knownIMAPServers` table, `ResolveIMAPServer` returns the table's
endpoint without probing any host, whatever the network reachability and
MX situation. -/
theorem resolve_static_table (probe : String → Bool)
    (mxPrimary : Option String) (email userPart rawDomain server : String)
    (hsplit : goSplitChar '@' email = [userPart, rawDomain])
    (hknown : lookupKnown (goToLower rawDomain) = some server) :
    resolveIMAPServer probe mxPrimary email = (Except.ok server, []) := by
  unfold resolveIMAPServer
  rw [hsplit]
  simp [hknown]

/-- Closed instance of `resolve_static_table`:
`Resolve("user@gmail.com")` is `imap.gmail.com:993` and probes nothing,
even when every host would be reachable. -/
theorem resolve_static_table_witness :
    goSplitChar '@' "user@gmail.com" = ["user", "gmail.com"] ∧
    lookupKnown (goToLower "gmail.com") = some "imap.gmail.com:993" ∧
    resolveIMAPServer (fun _ => true) none "user@gmail.com" =
      (Except.ok "imap.gmail.com:993", []) :=
  ⟨by decide, by decide,
   resolve_static_table (fun _ => true) none "user@gmail.com" "user"
     "gmail.com" "imap.gmail.com:993" (by decide) (by decide)⟩

end TgEmailResend
